import Mathlib

/-! Verification of the lc0 PGN-analysis pipeline of this repository
(src/scripts/analyze_pgn.py).

Shallow embedding of the transcript parsing (the regular expressions
`MULTIPV_RE`, `WDL_RE`, `PV_RE`, `INFO_STRING_RE` and the two extraction
loops of `parse_analysis`, lines 403-481), of the rank-reconciliation
logic (lines 483-601), and of the focused-search WDL recovery step of
`analyze_pgn` (lines 301-322).

Modelling conventions:
* engine transcript lines are `String`s (scanned as `List Char`);
* Python floats are `ℚ` (transcript numbers are finite decimals; the
  claims settled here depend only on values that are exact in both
  binary floating point and `ℚ`);
* Python dicts are insertion-ordered association lists, as Python
  guarantees insertion order and the code iterates over `.items()`;
* the board context (`python-chess` UCI→SAN translation) is opaque: a
  function `String → Option String`, `none` meaning the move is
  malformed/illegal so the code keeps the UCI encoding (fail-open);
* an uncaught Python exception is `Except.error ()`. -/

/-- A win/draw/loss triple in permille, as parsed by `WDL_RE` (line 144). -/
abbrev Wdl := ℕ × ℕ × ℕ

/-- One entry of `verbose_data` (lines 472-481): `visits` and `policy` are
always written by the parse loop; `q_value` is written only when Python
`float` accepts the captured text. -/
structure VerboseEntry where
  visits : ℕ
  policy : ℚ
  q_value : Option ℚ
deriving DecidableEq, Repr

/-- The `multipv_data` dict (lines 404-444): move key to optional WDL; an
entry with `none` is the empty per-move dict `{}`. -/
abbrev MpvTable := List (String × Option Wdl)

/-- The `verbose_data` dict (lines 447-481). -/
abbrev VbTable := List (String × VerboseEntry)

/-- Board context: UCI encoding to SAN when the move parses and is legal
(`chess.Move.from_uci` + `board.legal_moves` + `board.san`, lines 425-432
and 463-470), `none` otherwise. -/
def Ctx := String → Option String

/-- Match a literal at the head of the input, returning the remainder. -/
def litThen : List Char → List Char → Option (List Char)
  | [], s => some s
  | _ :: _, [] => none
  | p :: ps, c :: cs => if p = c then litThen ps cs else none

/-- Python `pat in line` substring test. -/
def hasSubstr (pat : List Char) : List Char → Bool
  | [] => (litThen pat []).isSome
  | c :: cs => (litThen pat (c :: cs)).isSome || hasSubstr pat cs

/-- Numeric value of a digit run, as Python `int` on a `\d+` capture. -/
def natOfDigits (ds : List Char) : ℕ :=
  ds.foldl (fun n c => 10 * n + (c.toNat - 48)) 0

/-- `10 ^ n` as an integer.  (All rational arithmetic below is phrased
through `Rat.divInt` and integer operations, which the kernel evaluates;
the typeclass arithmetic on `ℚ` does not reduce definitionally.) -/
def ipow10 : ℕ → ℤ
  | 0 => 1
  | n + 1 => 10 * ipow10 n

/-- An integer as a rational. -/
def qOfInt (n : ℤ) : ℚ := Rat.divInt n 1

/-- Rational multiplication via `Rat.divInt`. -/
def qMul (a b : ℚ) : ℚ := Rat.divInt (a.num * b.num) (Int.ofNat a.den * Int.ofNat b.den)

/-- Rational division via `Rat.divInt`. -/
def qDiv (a b : ℚ) : ℚ := Rat.divInt (a.num * Int.ofNat b.den) (Int.ofNat a.den * b.num)

/-- Rational subtraction via `Rat.divInt`. -/
def qSub (a b : ℚ) : ℚ :=
  Rat.divInt (a.num * Int.ofNat b.den - b.num * Int.ofNat a.den)
    (Int.ofNat a.den * Int.ofNat b.den)

/-- Rational negation via `Rat.divInt`. -/
def qNeg (a : ℚ) : ℚ := Rat.divInt (-a.num) (Int.ofNat a.den)

/-- Floor of a rational (the denominator is positive, so floored integer
division of the numerator by it). -/
def qFloor (x : ℚ) : ℤ := Int.fdiv x.num (Int.ofNat x.den)

/-- The value `ip.frac` of a decimal literal with fraction length
`len`. -/
def decimalVal (ip frac len : ℕ) : ℚ :=
  Rat.divInt (Int.ofNat ip * ipow10 len + Int.ofNat frac) (ipow10 len)

/-- Python `float` on a sign-free string drawn from the class `[\d.]+`:
valid iff it has at least one digit and at most one dot. -/
def pyFloatUnsigned (s : List Char) : Option ℚ :=
  let intPart := s.takeWhile Char.isDigit
  let rest := s.dropWhile Char.isDigit
  match rest with
  | [] => if intPart.isEmpty then none else some (qOfInt (Int.ofNat (natOfDigits intPart)))
  | '.' :: frac =>
      if frac.all Char.isDigit ∧ ¬(intPart.isEmpty ∧ frac.isEmpty) then
        some (decimalVal (natOfDigits intPart) (natOfDigits frac) frac.length)
      else none
  | _ => none

/-- Python `float` on a string drawn from the class `[-\d.]+`
(a minus sign is accepted only at the front). -/
def pyFloat (s : List Char) : Option ℚ :=
  match s with
  | '-' :: rest => (pyFloatUnsigned rest).map qNeg
  | _ => pyFloatUnsigned s

/-- Round half to even on an integer scale (the tie-breaking rule of
Python's `round`). -/
def roundHalfEven (x : ℚ) : ℤ :=
  let f := qFloor x
  let r := qSub x (qOfInt f)
  if Rat.blt r (Rat.divInt 1 2) then f
  else if Rat.blt (Rat.divInt 1 2) r then f + 1
  else if Int.emod f 2 = 0 then f else f + 1

/-- Python `round(x, n)` (lines 474 and 479). -/
def pyRound (x : ℚ) (n : ℕ) : ℚ :=
  Rat.divInt (roundHalfEven (qMul x (qOfInt (ipow10 n)))) (ipow10 n)

/-- `MULTIPV_RE.search` (line 143, `multipv (\d+)`): leftmost occurrence of
the literal followed by at least one digit; the capture is the maximal
digit run. -/
def searchMultipv : List Char → Option ℕ
  | [] => none
  | c :: cs =>
      match litThen ("multipv ".toList) (c :: cs) with
      | some rest =>
          let ds := rest.takeWhile Char.isDigit
          if ds.isEmpty then searchMultipv cs else some (natOfDigits ds)
      | none => searchMultipv cs

/-- `WDL_RE` (line 144, `wdl (\d+) (\d+) (\d+)`) anchored at the head. -/
def matchWdlAt (s : List Char) : Option Wdl :=
  match litThen ("wdl ".toList) s with
  | none => none
  | some s1 =>
      let d1 := s1.takeWhile Char.isDigit
      if d1.isEmpty then none else
      match litThen (" ".toList) (s1.dropWhile Char.isDigit) with
      | none => none
      | some s2 =>
          let d2 := s2.takeWhile Char.isDigit
          if d2.isEmpty then none else
          match litThen (" ".toList) (s2.dropWhile Char.isDigit) with
          | none => none
          | some s3 =>
              let d3 := s3.takeWhile Char.isDigit
              if d3.isEmpty then none
              else some (natOfDigits d1, natOfDigits d2, natOfDigits d3)

/-- `WDL_RE.search` (lines 144, 312, 412): leftmost match. -/
def searchWdl : List Char → Option Wdl
  | [] => none
  | c :: cs =>
      match matchWdlAt (c :: cs) with
      | some w => some w
      | none => searchWdl cs

/-- `PV_RE.search` (line 145, ` pv (.+)$`): leftmost occurrence of
`" pv "` followed by at least one character; the capture runs to the end
of the line. -/
def searchPv : List Char → Option (List Char)
  | [] => none
  | c :: cs =>
      match litThen (" pv ".toList) (c :: cs) with
      | some rest => if rest.isEmpty then searchPv cs else some rest
      | none => searchPv cs

/-- Python `str.split()` with no argument: split on whitespace runs,
dropping empty pieces (line 418). -/
def splitWsAux : List Char → List Char → List (List Char)
  | [], acc => if acc.isEmpty then [] else [acc.reverse]
  | c :: cs, acc =>
      if c.isWhitespace then
        if acc.isEmpty then splitWsAux cs [] else acc.reverse :: splitWsAux cs []
      else splitWsAux cs (c :: acc)

/-- Python `str.split()` with no argument. -/
def splitWs (s : List Char) : List (List Char) := splitWsAux s []

/-- A chess-board file letter `[a-h]`. -/
def isFileChar (c : Char) : Bool := decide ('a' ≤ c) && decide (c ≤ 'h')

/-- A chess-board rank digit `[1-8]`. -/
def isRankChar (c : Char) : Bool := decide ('1' ≤ c) && decide (c ≤ '8')

/-- A promotion piece letter `[qrbn]`. -/
def isPromoChar (c : Char) : Bool := c = 'q' || c = 'r' || c = 'b' || c = 'n'

/-- A character of the class `[\d.]`. -/
def isPolChar (c : Char) : Bool := c.isDigit || c = '.'

/-- A character of the class `[-\d.]`. -/
def isQvChar (c : Char) : Bool := c.isDigit || c = '.' || c = '-'

/-- The move group of `INFO_STRING_RE` (line 149,
`[a-h][1-8][a-h][1-8][qrbn]?`) anchored at the head, with the greedy
optional promotion letter.  (Taking the promotion letter greedily is
equivalent to full backtracking here: a lowercase `[qrbn]` character can
never begin the following `N:` literal.) -/
def matchMoveAt : List Char → Option (List Char × List Char)
  | a :: b :: c :: d :: rest =>
      if isFileChar a && isRankChar b && isFileChar c && isRankChar d then
        match rest with
        | e :: rest2 =>
            if isPromoChar e then some ([a, b, c, d, e], rest2)
            else some ([a, b, c, d], rest)
        | [] => some ([a, b, c, d], [])
      else none
  | _ => none

/-- The `\(Q:\s+([-\d.]+)\)` tail of `INFO_STRING_RE` (line 155) anchored
at the head; returns the capture. -/
def matchQAt (s : List Char) : Option (List Char) :=
  match litThen ("(Q:".toList) s with
  | none => none
  | some s1 =>
      if (s1.takeWhile Char.isWhitespace).isEmpty then none else
      let s2 := s1.dropWhile Char.isWhitespace
      let g := s2.takeWhile isQvChar
      if g.isEmpty then none else
      match s2.dropWhile isQvChar with
      | ')' :: _ => some g
      | _ => none

/-- Lazy scan `.*?\(Q:\s+([-\d.]+)\)`: earliest position where the
Q-value part matches. -/
def findQ : List Char → Option (List Char)
  | [] => none
  | c :: cs =>
      match matchQAt (c :: cs) with
      | some g => some g
      | none => findQ cs

/-- The `\(P:\s+([\d.]+)%\)` part of `INFO_STRING_RE` (line 153) anchored
at the head; returns the capture and the remainder after `%)`. -/
def matchPAt (s : List Char) : Option (List Char × List Char) :=
  match litThen ("(P:".toList) s with
  | none => none
  | some s1 =>
      if (s1.takeWhile Char.isWhitespace).isEmpty then none else
      let s2 := s1.dropWhile Char.isWhitespace
      let g := s2.takeWhile isPolChar
      if g.isEmpty then none else
      match s2.dropWhile isPolChar with
      | '%' :: ')' :: rest => some (g, rest)
      | _ => none

/-- Lazy scan `.*?\(P:\s+([\d.]+)%\)` followed by the Q-value scan, with
regex backtracking: a policy match position is accepted only if a Q-value
match exists later; otherwise the scan resumes one character further. -/
def findP : List Char → Option (List Char × List Char)
  | [] => none
  | c :: cs =>
      match matchPAt (c :: cs) with
      | some (g, rest) =>
          match findQ rest with
          | some q => some (g, q)
          | none => findP cs
      | none => findP cs

/-- The `N:\s+(\d+)` part of `INFO_STRING_RE` (line 151) anchored at the
head; returns the visit count and the remainder. -/
def matchNAt (s : List Char) : Option (ℕ × List Char) :=
  match litThen ("N:".toList) s with
  | none => none
  | some s1 =>
      if (s1.takeWhile Char.isWhitespace).isEmpty then none else
      let s2 := s1.dropWhile Char.isWhitespace
      let ds := s2.takeWhile Char.isDigit
      if ds.isEmpty then none
      else some (natOfDigits ds, s2.dropWhile Char.isDigit)

/-- Lazy scan `.*?N:\s+(\d+)` followed by the policy/Q scans, with regex
backtracking as in `findP`. -/
def findN : List Char → Option (ℕ × List Char × List Char)
  | [] => none
  | c :: cs =>
      match matchNAt (c :: cs) with
      | some (v, rest) =>
          match findP rest with
          | some (p, q) => some (v, p, q)
          | none => findN cs
      | none => findN cs

/-- `INFO_STRING_RE` anchored at the head: the literal `info string `,
the move group, then the lazy visit/policy/Q scans. -/
def matchInfoAt (s : List Char) : Option (List Char × ℕ × List Char × List Char) :=
  match litThen ("info string ".toList) s with
  | none => none
  | some s1 =>
      match matchMoveAt s1 with
      | none => none
      | some (mv, s2) =>
          match findN s2 with
          | none => none
          | some (v, p, q) => some (mv, v, p, q)

/-- `INFO_STRING_RE.search` (line 453): leftmost match, returning the
four captures (move, visits, policy text, Q-value text). -/
def searchInfo : List Char → Option (List Char × ℕ × List Char × List Char)
  | [] => none
  | c :: cs =>
      match matchInfoAt (c :: cs) with
      | some r => some r
      | none => searchInfo cs

/-- UCI→SAN with the fail-open rule of lines 425-432 / 463-470: keep the
UCI encoding when translation fails. -/
def uciToSan (ctx : Ctx) (uci : String) : String := (ctx uci).getD uci

/-- One `multipv` line of the first extraction loop (lines 406-444):
requires the substring guard, then both a `MULTIPV_RE` and a `PV_RE`
match with a non-empty move list; `setdefault` plus a conditional WDL
write mean: create the key if new, and overwrite its WDL only when the
line carries one (last write wins). -/
def mpvUpdate (tbl : MpvTable) (k : String) (w : Option Wdl) : MpvTable :=
  match tbl with
  | [] => [(k, w)]
  | (k2, w2) :: t =>
      if k2 = k then (k, if w.isSome then w else w2) :: t
      else (k2, w2) :: mpvUpdate t k w

/-- Processing of one transcript line by the `multipv` loop
(lines 406-444). -/
def mpvLineStep (ctx : Ctx) (tbl : MpvTable) (line : String) : MpvTable :=
  let s := line.toList
  if hasSubstr ("multipv".toList) s then
    match searchMultipv s, searchPv s with
    | some _, some pvg =>
        match splitWs pvg with
        | [] => tbl
        | mv :: _ => mpvUpdate tbl (uciToSan ctx (String.mk mv)) (searchWdl s)
    | _, _ => tbl
  else tbl

/-- The `multipv_data` table built by the first loop of `parse_analysis`
(lines 403-444). -/
def extractMultipv (lines : List String) (ctx : Ctx) : MpvTable :=
  lines.foldl (mpvLineStep ctx) []

/-- Python dict assignment `d[k] = v`: replace in place (keeping the
insertion position) or append. -/
def setAssoc (tbl : VbTable) (k : String) (v : VerboseEntry) : VbTable :=
  match tbl with
  | [] => [(k, v)]
  | (k2, v2) :: t =>
      if k2 = k then (k, v) :: t else (k2, v2) :: setAssoc t k v

/-- Processing of one transcript line by the `info string` loop
(lines 449-481).  `float(match.group(3))` at line 459 is NOT guarded by
`try`, so a policy capture that Python `float` rejects raises an uncaught
`ValueError`, modelled as `Except.error ()`; the Q-value conversion at
line 479 IS guarded (`except ValueError: pass`). -/
def vbLineStep (ctx : Ctx) (tbl : VbTable) (line : String) : Except Unit VbTable :=
  let s := line.toList
  if hasSubstr ("info string".toList) s then
    match searchInfo s with
    | none => .ok tbl
    | some (mv, visits, pg, qg) =>
        match pyFloat pg with
        | none => .error ()
        | some pct =>
            let san := uciToSan ctx (String.mk mv)
            let q := (pyFloat qg).map (fun x => pyRound x 5)
            .ok (setAssoc tbl san ⟨visits, pyRound (qDiv pct (qOfInt 100)) 4, q⟩)
  else .ok tbl

/-- The `verbose_data` table built by the second loop of `parse_analysis`
(lines 446-481), or the uncaught exception. -/
def extractVerbose (lines : List String) (ctx : Ctx) : Except Unit VbTable :=
  lines.foldlM (vbLineStep ctx) []

/-- A pre-ranking candidate dict as built at lines 484-500: `move` plus
the fields actually present (`visits`/`policy`/`q_value` from the verbose
table when the move is there, `wdl` from the multipv table when present).
No field of a pre-ranking candidate is ever Python `None`. -/
structure PreCand where
  move : String
  visits : Option ℕ
  policy : Option ℚ
  q_value : Option ℚ
  wdl : Option Wdl
deriving DecidableEq, Repr

/-- A candidate dict after rank assignment (lines 513-521), or the
synthesized played-move dict (lines 545-551).  `qval = none` models an
absent `q_value` key; `qval = some none` models a key present with the
Python value `None` (only the synthesized dict can carry it). -/
structure RankedCand where
  move : String
  rank : ℕ
  visits : Option ℕ
  policy : Option ℚ
  qval : Option (Option ℚ)
  wdl : Option Wdl
deriving DecidableEq, Repr

/-- The `evaluation` dict (lines 561-578): each field is added only when
present and not `None` in the played-move data; `rank` is always written
(both construction sites set it). -/
structure Evaluation where
  rank : ℕ
  visits : Option ℕ
  policy : Option ℚ
  q_value : Option ℚ
  wdl : Option Wdl
deriving DecidableEq, Repr

/-- First-match association lookup (Python dict access; keys produced by
the extractors are unique). -/
def lookupA {β : Type} : List (String × β) → String → Option β
  | [], _ => none
  | (k, v) :: t, k2 => if k = k2 then some v else lookupA t k2

/-- The candidate list before sorting (lines 484-500): one entry per
`multipv_data` key in insertion order, merged with the verbose fields. -/
def buildCands (mpv : MpvTable) (vb : VbTable) : List PreCand :=
  mpv.map (fun p =>
    match lookupA vb p.1 with
    | some e => ⟨p.1, some e.visits, some e.policy, e.q_value, p.2⟩
    | none => ⟨p.1, none, none, none, p.2⟩)

/-- The sort key of lines 507-511: `(-visits, -q_value, -policy)` with the
defaults `0`, `-999.0`, `0.0` for missing fields. -/
def sortKey (c : PreCand) : ℚ × ℚ × ℚ :=
  (qNeg (qOfInt (Int.ofNat (c.visits.getD 0))),
    qNeg (c.q_value.getD (qOfInt (-999))),
    qNeg (c.policy.getD (qOfInt 0)))

/-- Strict lexicographic order on sort keys (Python tuple `<`;
`Rat.blt` is the executable strict order on `ℚ`). -/
def keyLT (a b : ℚ × ℚ × ℚ) : Bool :=
  Rat.blt a.1 b.1 ||
    (decide (a.1 = b.1) &&
      (Rat.blt a.2.1 b.2.1 ||
        (decide (a.2.1 = b.2.1) && Rat.blt a.2.2 b.2.2)))

/-- `candLT a b` iff candidate `a` sorts strictly before candidate `b`. -/
def candLT (a b : PreCand) : Bool := keyLT (sortKey a) (sortKey b)

/-- Stable insertion: `x` goes before the first element it strictly
precedes, so elements with equal keys keep their original order. -/
def insertCand (x : PreCand) : List PreCand → List PreCand
  | [] => [x]
  | y :: ys => if candLT y x then y :: insertCand x ys else x :: y :: ys

/-- `candidates.sort(key=...)` (lines 507-511): Python's sort is stable
and ascending in the key; a stable insertion sort has exactly that
input/output behaviour. -/
def sortCands : List PreCand → List PreCand
  | [] => []
  | x :: xs => insertCand x (sortCands xs)

/-- Rank assignment `enumerate(candidates, start=1)` (lines 513-521): the
dict is rebuilt with the same data fields plus the 1-based position. -/
def assignRanks : ℕ → List PreCand → List RankedCand
  | _, [] => []
  | r, c :: cs =>
      ⟨c.move, r, c.visits, c.policy, c.q_value.map some, c.wdl⟩ :: assignRanks (r + 1) cs

/-- The fully ranked candidate list, before truncation (lines 502-521). -/
def rankedCands (mpv : MpvTable) (vb : VbTable) : List RankedCand :=
  assignRanks 1 (sortCands (buildCands mpv vb))

/-- `candidates = candidates[:max_candidates]` (line 524). -/
def truncCands (mpv : MpvTable) (vb : VbTable) (cap : ℕ) : List RankedCand :=
  (rankedCands mpv vb).take cap

/-- The search for the played move in the truncated candidate list
(lines 531-534). -/
def findPlayed (mpv : MpvTable) (vb : VbTable) (cap : ℕ) (played : String) :
    Option RankedCand :=
  (truncCands mpv vb cap).find? (fun c => c.move = played)

/-- `sum` of visit counts over the whole verbose table (lines 582-585). -/
def sumVisits (vb : VbTable) : ℕ := (vb.map (fun p => p.2.visits)).sum

/-- Number of verbose entries with strictly more visits than `v`
(the rank loop of lines 540-543). -/
def countGreater (vb : VbTable) (v : ℕ) : ℕ :=
  (vb.filter (fun p => v < p.2.visits)).length

/-- Sum of visits over verbose entries with strictly more visits than `v`
(lines 593-597). -/
def sumGreater (vb : VbTable) (v : ℕ) : ℕ :=
  ((vb.filter (fun p => v < p.2.visits)).map (fun p => p.2.visits)).sum

/-- The synthesized played-move dict of lines 545-551: rank from the
direct count, `visits`/`policy`/`q_value` keys written unconditionally
with `verbose_data[played].get(...)` values (so `q_value` may be a
present key holding `None`), and no WDL. -/
def synthPmd (vb : VbTable) (played : String) (e : VerboseEntry) : RankedCand :=
  ⟨played, 1 + countGreater vb e.visits, some e.visits, some e.policy,
    some e.q_value, none⟩

/-- The `played_move_data` dict (lines 526-555): the truncated-list hit,
else the synthesized dict when the played move is in the verbose table. -/
def pmdOf (mpv : MpvTable) (vb : VbTable) (cap : ℕ) (played : String) :
    Option RankedCand :=
  match findPlayed mpv vb cap played with
  | some c => some c
  | none => (lookupA vb played).map (synthPmd vb played)

/-- The returned candidate list: the truncated list, with the synthesized
played-move dict appended (line 555) when the played move was not found
in the truncated list but is in the verbose table. -/
def candsOut (mpv : MpvTable) (vb : VbTable) (cap : ℕ) (played : String) :
    List RankedCand :=
  match findPlayed mpv vb cap played with
  | some _ => truncCands mpv vb cap
  | none =>
      match lookupA vb played with
      | some e => truncCands mpv vb cap ++ [synthPmd vb played e]
      | none => truncCands mpv vb cap

/-- The `evaluation` dict built from played-move data (lines 561-578):
fields are copied when present and not `None`; flattening `qval` models
the `is not None` check on `q_value`. -/
def evalOf (pmd : RankedCand) : Evaluation :=
  ⟨pmd.rank, pmd.visits, pmd.policy, pmd.qval.join, pmd.wdl⟩

/-- The returned `evaluation` (lines 557-578): `None` exactly when no
played-move data was found. -/
def evalOut (mpv : MpvTable) (vb : VbTable) (cap : ℕ) (played : String) :
    Option Evaluation :=
  (pmdOf mpv vb cap played).map evalOf

/-- The returned `total_visits` (lines 580-587): `None` when the verbose
table is empty, and ALSO set back to `None` when the sum is zero. -/
def totalVisitsOut (vb : VbTable) : Option ℕ :=
  if vb.isEmpty then none
  else if sumVisits vb = 0 then none else some (sumVisits vb)

/-- The returned `visits_on_better` (lines 589-599): present whenever
played-move data exists (its `rank` key always is), computed over the
verbose table against `played_move_data.get("visits", 0)`. -/
def vobOut (mpv : MpvTable) (vb : VbTable) (cap : ℕ) (played : String) :
    Option ℕ :=
  (pmdOf mpv vb cap played).map (fun pmd => sumGreater vb (pmd.visits.getD 0))

/-- The reconciliation stage of `parse_analysis` (lines 483-601), from
the two extracted tables to the returned quadruple. -/
def reconcile (mpv : MpvTable) (vb : VbTable) (cap : ℕ) (played : String) :
    List RankedCand × Option Evaluation × Option ℕ × Option ℕ :=
  (candsOut mpv vb cap played, evalOut mpv vb cap played,
    totalVisitsOut vb, vobOut mpv vb cap played)

/-- `parse_analysis` (lines 387-601): both extraction loops, then the
reconciliation; the unguarded `float` of line 459 propagates as an
uncaught exception. -/
def parse_analysis (lines : List String) (ctx : Ctx) (max_candidates : ℕ)
    (played_move_san : String) :
    Except Unit (List RankedCand × Option Evaluation × Option ℕ × Option ℕ) :=
  match extractVerbose lines ctx with
  | .error e => .error e
  | .ok vb => .ok (reconcile (extractMultipv lines ctx) vb max_candidates played_move_san)

/-- The scan of the focused-search transcript (lines 310-312): the first
line that contains `"wdl"` and matches `WDL_RE` wins; non-matching lines
are passed over. -/
def findFocusedWdl : List String → Option Wdl
  | [] => none
  | l :: ls =>
      if hasSubstr ("wdl".toList) l.toList then
        match searchWdl l.toList with
        | some w => some w
        | none => findFocusedWdl ls
      else findFocusedWdl ls

/-- The candidate-list splice of lines 317-321: set the WDL of the first
candidate whose move matches the played move. -/
def setCandWdl (w : Wdl) (played : String) : List RankedCand → List RankedCand
  | [] => []
  | c :: cs =>
      if c.move = played then { c with wdl := some w } :: cs
      else c :: setCandWdl w played cs

/-- The recovery step of `analyze_pgn` (lines 301-322): triggered only
when the evaluation lacks a WDL; splices the focused-search WDL into the
evaluation and the matching candidate, or changes nothing when the
focused transcript yields no WDL. -/
def recover (ev : Evaluation) (cands : List RankedCand) (played : String)
    (focused : List String) : Evaluation × List RankedCand :=
  if ev.wdl.isSome then (ev, cands)
  else
    match findFocusedWdl focused with
    | some w => ({ ev with wdl := some w }, setCandWdl w played cands)
    | none => (ev, cands)

/-- Candidate-list component of a `parse_analysis` result (`[]` when the
call raised). -/
def candsOf (r : Except Unit (List RankedCand × Option Evaluation × Option ℕ × Option ℕ)) :
    List RankedCand :=
  match r with
  | .ok x => x.1
  | .error _ => []

/-- Evaluation component of a `parse_analysis` result. -/
def evalOfR (r : Except Unit (List RankedCand × Option Evaluation × Option ℕ × Option ℕ)) :
    Option Evaluation :=
  match r with
  | .ok x => x.2.1
  | .error _ => none

/-- `total_visits` component of a `parse_analysis` result. -/
def tvOfR (r : Except Unit (List RankedCand × Option Evaluation × Option ℕ × Option ℕ)) :
    Option ℕ :=
  match r with
  | .ok x => x.2.2.1
  | .error _ => none

/-- `visits_on_better` component of a `parse_analysis` result. -/
def vobOfR (r : Except Unit (List RankedCand × Option Evaluation × Option ℕ × Option ℕ)) :
    Option ℕ :=
  match r with
  | .ok x => x.2.2.2
  | .error _ => none

/-- A board context on which every UCI→SAN translation fails open, so all
keys stay in UCI encoding (the documented `MoveTranslationFailure`
fallback). -/
def ctx0 : Ctx := fun _ => none

/-- Inserting into a stably sorted list is a permutation of consing. -/
theorem insertCand_perm (x : PreCand) (l : List PreCand) :
    (insertCand x l).Perm (x :: l) := by
  induction l with
  | nil => rfl
  | cons y ys ih =>
      unfold insertCand
      by_cases h : candLT y x = true
      · rw [if_pos h]
        exact (ih.cons y).trans (List.Perm.swap x y ys)
      · rw [if_neg h]

/-- The stable sort permutes its input. -/
theorem sortCands_perm (l : List PreCand) : (sortCands l).Perm l := by
  induction l with
  | nil => rfl
  | cons x xs ih => exact (insertCand_perm x (sortCands xs)).trans (ih.cons x)

/-- Rank assignment writes the dense 1-step sequence starting at `k`. -/
theorem assignRanks_map_rank (l : List PreCand) :
    ∀ k, (assignRanks k l).map RankedCand.rank = List.range' k l.length := by
  induction l with
  | nil => intro k; rfl
  | cons c t ih =>
      intro k
      simp only [assignRanks, List.map_cons, List.length_cons, List.range'_succ, ih]

/-- Rank assignment does not change the recorded moves. -/
theorem assignRanks_map_move (l : List PreCand) :
    ∀ k, (assignRanks k l).map RankedCand.move = l.map PreCand.move := by
  induction l with
  | nil => intro k; rfl
  | cons c t ih => intro k; simp only [assignRanks, List.map_cons, ih]

/-- Every ranked candidate carries the data fields of a pre-ranking
candidate of the sorted list. -/
theorem assignRanks_mem (l : List PreCand) :
    ∀ k c, c ∈ assignRanks k l →
      ∃ p ∈ l, c.move = p.move ∧ c.visits = p.visits ∧ c.policy = p.policy ∧
        c.qval = p.q_value.map some ∧ c.wdl = p.wdl := by
  induction l with
  | nil => intro k c h; cases h
  | cons a t ih =>
      intro k c h
      rcases List.mem_cons.mp h with h | h
      · exact ⟨a, List.mem_cons_self a t, by subst h; exact ⟨rfl, rfl, rfl, rfl, rfl⟩⟩
      · obtain ⟨p, hp, hs⟩ := ih (k + 1) c h
        exact ⟨p, List.mem_cons_of_mem a hp, hs⟩

/-- The pre-ranking candidate list has exactly the multipv keys, in
order. -/
theorem buildCands_map_move (mpv : MpvTable) (vb : VbTable) :
    (buildCands mpv vb).map PreCand.move = mpv.map Prod.fst := by
  induction mpv with
  | nil => rfl
  | cons p t ih =>
      simp only [buildCands, List.map_cons] at ih ⊢
      cases h : lookupA vb p.1 <;> simp [h, ih]

/-- On a table with distinct keys, lookup finds any member. -/
theorem lookupA_of_nodup {β : Type} (l : List (String × β)) (k : String) (v : β)
    (hnd : (l.map Prod.fst).Nodup) (hm : (k, v) ∈ l) : lookupA l k = some v := by
  induction l with
  | nil => cases hm
  | cons p t ih =>
      rw [List.map_cons] at hnd
      have hnd2 := List.nodup_cons.mp hnd
      rcases List.mem_cons.mp hm with h | h
      · subst h; simp [lookupA]
      · have hk : p.1 ≠ k := fun he =>
          hnd2.1 (by rw [he]; exact List.mem_map.mpr ⟨(k, v), h, rfl⟩)
        cases p with
        | mk k2 v2 =>
            simp only [lookupA]
            rw [if_neg hk]
            exact ih hnd2.2 h

/-- Ranks strictly above 1 contribute nothing to the rank-1 filter. -/
theorem assignRanks_filter_one (l : List PreCand) :
    ∀ k, 1 < k → (assignRanks k l).filter (fun c => c.rank = 1) = [] := by
  induction l with
  | nil => intro k _; rfl
  | cons c t ih =>
      intro k hk
      have hk1 : k ≠ 1 := by omega
      simp only [assignRanks, List.filter_cons]
      simp only [decide_eq_true_eq]
      rw [if_neg (by simpa using hk1)]
      exact ih (k + 1) (by omega)

/-- A non-empty list ranked from 1 has exactly one rank-1 element. -/
theorem assignRanks_one_rank_one (l : List PreCand) (h : l ≠ []) :
    ((assignRanks 1 l).filter (fun c => c.rank = 1)).length = 1 := by
  cases l with
  | nil => exact absurd rfl h
  | cons c t =>
      simp only [assignRanks, List.filter_cons]
      rw [if_pos (by simp)]
      rw [assignRanks_filter_one t 2 (by omega)]
      rfl

/-- The sum of visits over the strictly-better verbose entries vanishes
iff there is no strictly-better verbose entry: every filtered entry has
at least one visit. -/
theorem sumGreater_eq_zero_iff (vb : VbTable) (v : ℕ) :
    sumGreater vb v = 0 ↔ countGreater vb v = 0 := by
  unfold sumGreater countGreater
  rw [List.sum_eq_zero_iff, List.length_eq_zero]
  constructor
  · intro h
    cases hf : vb.filter (fun p => decide (v < p.2.visits)) with
    | nil => rfl
    | cons p t =>
        have hp : p ∈ vb.filter (fun p => decide (v < p.2.visits)) := by
          rw [hf]; exact List.mem_cons_self p t
        have hv : v < p.2.visits := by simpa using (List.mem_filter.mp hp).2
        have h0 : p.2.visits = 0 := h _ (List.mem_map.mpr ⟨p, hp, rfl⟩)
        omega
  · intro h
    rw [h]
    intro x hx
    cases hx

/-- A transcript whose only payload line is a verbose report for `e2e4`
(10 visits, policy 50%, Q 0.5). -/
def cexLines1 : List String := ["info string e2e4 N: 10 (P: 50.0%) (Q: 0.5)"]

/-- A transcript with a multipv report for `e2e4` (carrying a WDL) and a
verbose report only for `d2d4`. -/
def cexLines3 : List String :=
  ["info depth 1 multipv 1 wdl 500 300 200 pv e2e4",
   "info string d2d4 N: 10 (P: 50.0%) (Q: 0.5)"]

/-- A transcript with two multipv moves and verbose reports for both
(`e2e4` 10 visits, `d2d4` 5 visits). -/
def cexLines5 : List String :=
  ["info depth 1 multipv 1 pv e2e4",
   "info depth 1 multipv 2 pv d2d4",
   "info string e2e4 N: 10 (P: 50.0%) (Q: 0.5)",
   "info string d2d4 N: 5 (P: 25.0%) (Q: 0.25)"]

/-- A transcript whose single verbose report carries a zero visit
count. -/
def cexLines6 : List String := ["info string e2e4 N: 0 (P: 50.0%) (Q: 0.5)"]

/-- A transcript line whose policy capture `1.2.3` matches the regex
class `[\d.]+` but is rejected by Python `float`. -/
def cexLines7 : List String := ["info string e2e4 N: 10 (P: 1.2.3%) (Q: 0.5)"]

/-- A transcript line whose Q-value capture `-` matches the regex class
`[-\d.]+` but is rejected by Python `float`, so the verbose entry has no
`q_value`. -/
def cexLines8 : List String := ["info string e2e4 N: 10 (P: 50.0%) (Q: -)"]

/-- The verbose table extracted from `cexLines1`, as an `Option`. -/
def vbOf (r : Except Unit VbTable) : Option VbTable :=
  match r with
  | .ok t => some t
  | .error _ => none

/-- Whether a `parse_analysis` run ended in an uncaught exception. -/
def raised (r : Except Unit (List RankedCand × Option Evaluation × Option ℕ × Option ℕ)) :
    Bool :=
  match r with
  | .error _ => true
  | .ok _ => false

/-- C1, counterexample: the candidate list is NOT the union of the two
tables' keys.  On a transcript whose verbose table holds `e2e4` but whose
multipv table is empty, with a played move absent from both, the returned
candidate list is empty: the verbose-only key `e2e4` appears as no
candidate, although the claim requires every key of either table to
appear. -/
theorem claim_C1_counterexample :
    vbOf (extractVerbose cexLines1 ctx0) =
      some [("e2e4", ⟨10, Rat.divInt 1 2, some (Rat.divInt 1 2)⟩)] ∧
    candsOf (parse_analysis cexLines1 ctx0 10 "d2d4") = [] ∧
    ¬ ("e2e4" ∈ (candsOf (parse_analysis cexLines1 ctx0 10 "d2d4")).map
        RankedCand.move) := by
  refine ⟨by decide, by decide, by decide⟩

/-- C2, counterexample: on a transcript with a non-empty verbose table
but an empty multipv table, and a played move outside the verbose table,
`parse_analysis` returns an empty candidate list, so NO candidate has
rank 1 although the claim demands exactly one. -/
theorem claim_C2_counterexample :
    vbOf (extractVerbose cexLines1 ctx0) =
      some [("e2e4", ⟨10, Rat.divInt 1 2, some (Rat.divInt 1 2)⟩)] ∧
    ((candsOf (parse_analysis cexLines1 ctx0 10 "g8f6")).filter
        (fun c => c.rank = 1)).length = 0 := by
  refine ⟨by decide, by decide⟩

/-- C3, counterexample: evaluation is produced with rank 1, yet
`visits_on_better` is 10, not 0.  The played move sits in the multipv
table without a verbose entry (so its visits default to 0 in both the
sort and the visits-on-better comparison), while a verbose-only move has
10 visits: rank comes from the candidate sort over multipv keys only,
visits-on-better from the verbose table, and the claimed equivalence
breaks. -/
theorem claim_C3_counterexample :
    (evalOfR (parse_analysis cexLines3 ctx0 10 "e2e4")).map Evaluation.rank =
      some 1 ∧
    vobOfR (parse_analysis cexLines3 ctx0 10 "e2e4") = some 10 := by
  refine ⟨by decide, by decide⟩

/-- C5, counterexample: with capacity 1 and the played move ranked 2, the
played-move dict is appended AFTER truncation (line 555), so the returned
list has 2 entries, exceeding the configured capacity. -/
theorem claim_C5_counterexample :
    ¬ ((candsOf (parse_analysis cexLines5 ctx0 1 "d2d4")).length ≤ 1) := by
  decide

/-- C6, counterexample: a non-empty verbose table whose visit counts sum
to zero yields `total_visits = None` (lines 586-587 null the zero sum),
so nullness is NOT equivalent to the table being empty. -/
theorem claim_C6_counterexample :
    vbOf (extractVerbose cexLines6 ctx0) =
      some [("e2e4", ⟨0, Rat.divInt 1 2, some (Rat.divInt 1 2)⟩)] ∧
    tvOfR (parse_analysis cexLines6 ctx0 10 "e2e4") = none := by
  refine ⟨by decide, by decide⟩

/-- C7: the extractor is NOT total.  The line of `cexLines7` matches
`INFO_STRING_RE` (its captures are shown), but its policy capture is
rejected by Python `float`, so line 459 raises an uncaught `ValueError`
and the whole analysis of the position aborts. -/
theorem claim_C7_theorem :
    searchInfo ("info string e2e4 N: 10 (P: 1.2.3%) (Q: 0.5)".toList) =
      some ("e2e4".toList, 10, "1.2.3".toList, "0.5".toList) ∧
    pyFloat ("1.2.3".toList) = none ∧
    raised (parse_analysis cexLines7 ctx0 10 "e2e4") = true := by
  refine ⟨by decide, by decide, by decide⟩

/-- C8: a field is emitted with a null value.  When the played move's
verbose line has an unparsable Q-value and the move is outside the
multipv list, the synthesized candidate dict (lines 545-551) carries a
`q_value` key holding Python `None` (modelled `some none`) and is
appended to the emitted candidate list, while the evaluation object for
the same move omits the field. -/
theorem claim_C8_theorem :
    candsOf (parse_analysis cexLines8 ctx0 10 "e2e4") =
      [⟨"e2e4", 1, some 10, some (Rat.divInt 1 2), some none, none⟩] ∧
    evalOfR (parse_analysis cexLines8 ctx0 10 "e2e4") =
      some ⟨1, some 10, some (Rat.divInt 1 2), none, none⟩ := by
  refine ⟨by decide, by decide⟩

/-- C1, amended: the returned candidate list is built from the multipv
keys only.  The ranked list (before truncation) permutes exactly the
multipv keys; each of its candidates carries its move's multipv WDL entry
and, exactly when the move is in the verbose table, that table's
visits/policy/q-value; the returned list is the capacity-truncated ranked
list, with the synthesized played-move dict appended exactly when the
played move is in the verbose table but not in the truncated list. -/
theorem claim_C1_amended (mpv : MpvTable) (vb : VbTable) (cap : ℕ) (played : String)
    (hnd : (mpv.map Prod.fst).Nodup) :
    ((rankedCands mpv vb).map RankedCand.move).Perm (mpv.map Prod.fst) ∧
    (∀ c, c ∈ rankedCands mpv vb →
      lookupA mpv c.move = some c.wdl ∧
      ((∃ e, lookupA vb c.move = some e ∧ c.visits = some e.visits ∧
          c.policy = some e.policy ∧ c.qval = e.q_value.map some) ∨
        (lookupA vb c.move = none ∧ c.visits = none ∧ c.policy = none ∧
          c.qval = none))) ∧
    (candsOut mpv vb cap played = truncCands mpv vb cap ∨
      ∃ e, lookupA vb played = some e ∧
        candsOut mpv vb cap played =
          truncCands mpv vb cap ++ [synthPmd vb played e]) := by
  have hperm : (sortCands (buildCands mpv vb)).Perm (buildCands mpv vb) :=
    sortCands_perm _
  refine ⟨?_, ?_, ?_⟩
  · rw [rankedCands, assignRanks_map_move]
    have h := hperm.map PreCand.move
    rw [buildCands_map_move] at h
    exact h
  · intro c hc
    obtain ⟨p, hps, hmv, hv, hpol, hq, hw⟩ := assignRanks_mem _ _ c hc
    have hpb : p ∈ buildCands mpv vb := hperm.mem_iff.mp hps
    obtain ⟨q2, hq2, hfq⟩ := List.mem_map.mp hpb
    constructor
    · rw [hmv, hw]
      cases hlv : lookupA vb q2.1 <;>
        · rw [hlv] at hfq
          subst hfq
          exact lookupA_of_nodup mpv q2.1 q2.2 hnd (by rw [Prod.mk.eta]; exact hq2)
    · cases hlv : lookupA vb q2.1 with
      | some e =>
          rw [hlv] at hfq
          subst hfq
          exact Or.inl ⟨e, by rw [hmv]; exact hlv, by rw [hv], by rw [hpol],
            by rw [hq]⟩
      | none =>
          rw [hlv] at hfq
          subst hfq
          exact Or.inr ⟨by rw [hmv]; exact hlv, by rw [hv], by rw [hpol],
            by rw [hq]; rfl⟩
  · unfold candsOut
    cases hf : findPlayed mpv vb cap played with
    | some c => exact Or.inl rfl
    | none =>
        cases hl : lookupA vb played with
        | some e => exact Or.inr ⟨e, rfl, rfl⟩
        | none => exact Or.inl rfl

/-- C2, amended: whenever the multipv (bounded) table is non-empty, the
fully ranked candidate list — before capacity truncation and before the
played-move append — carries exactly the dense rank sequence `1..N`
(`N` = number of multipv keys) and has exactly one rank-1 candidate. -/
theorem claim_C2_amended (mpv : MpvTable) (vb : VbTable) (h : mpv ≠ []) :
    (rankedCands mpv vb).map RankedCand.rank = List.range' 1 mpv.length ∧
    ((rankedCands mpv vb).filter (fun c => c.rank = 1)).length = 1 := by
  have hlen : (sortCands (buildCands mpv vb)).length = mpv.length := by
    rw [(sortCands_perm _).length_eq]
    have := congrArg List.length (buildCands_map_move mpv vb)
    simpa using this
  constructor
  · rw [rankedCands, assignRanks_map_rank, hlen]
  · refine assignRanks_one_rank_one _ ?_
    intro he
    apply h
    rw [he] at hlen
    exact (List.length_eq_zero.mp hlen.symm)

/-- C3, amended: on the synthesized-evaluation path (the played move is
not in the truncated candidate list but is in the verbose table),
`visits_on_better` is zero exactly when the evaluation's rank is 1: both
are computed against the same strictly-more-visited verbose entries.  (On
the found-in-candidates path the equivalence fails, see the
counterexample.) -/
theorem claim_C3_amended (mpv : MpvTable) (vb : VbTable) (cap : ℕ) (played : String)
    (h1 : findPlayed mpv vb cap played = none)
    (h2 : (lookupA vb played).isSome = true) :
    (vobOut mpv vb cap played = some 0 ↔
      (evalOut mpv vb cap played).map Evaluation.rank = some 1) := by
  obtain ⟨e, he⟩ := Option.isSome_iff_exists.mp h2
  have hp : pmdOf mpv vb cap played = some (synthPmd vb played e) := by
    unfold pmdOf
    rw [h1, he]
    rfl
  unfold vobOut evalOut
  rw [hp]
  simp only [Option.map_some', synthPmd, evalOf, Option.some_inj]
  show (sumGreater vb ((some e.visits).getD 0) = 0 ↔ 1 + countGreater vb e.visits = 1)
  rw [Option.getD_some, sumGreater_eq_zero_iff]
  omega

/-- C4: the evaluation is exactly the found candidate's data when the
played move is in the truncated candidate list; otherwise, when the
played move is in the verbose table, it is synthesized with rank
`1 + (number of verbose entries with strictly more visits)`, the
visits/policy/q-value copied from the verbose entry, and no WDL; and it
is absent when the played move is in neither. -/
theorem claim_C4 (mpv : MpvTable) (vb : VbTable) (cap : ℕ) (played : String) :
    (∀ c, findPlayed mpv vb cap played = some c →
        evalOut mpv vb cap played =
          some ⟨c.rank, c.visits, c.policy, c.qval.join, c.wdl⟩) ∧
    (findPlayed mpv vb cap played = none →
      (∀ e, lookupA vb played = some e →
          evalOut mpv vb cap played =
            some ⟨1 + countGreater vb e.visits, some e.visits, some e.policy,
              e.q_value, none⟩) ∧
      (lookupA vb played = none → evalOut mpv vb cap played = none)) := by
  refine ⟨?_, fun hn => ⟨?_, ?_⟩⟩
  · intro c hc
    unfold evalOut pmdOf
    rw [hc]
    rfl
  · intro e he
    unfold evalOut pmdOf
    rw [hn, he]
    simp only [Option.map_some', synthPmd, evalOf]
    rfl
  · intro he
    unfold evalOut pmdOf
    rw [hn, he]
    rfl

/-- C5, amended: truncation to capacity happens after full ranking — the
truncated list is a sublist of the ranked list, so each surviving
candidate keeps its pre-truncation rank — but the returned list can hold
`capacity + 1` entries, because the synthesized played-move dict is
appended AFTER truncation; any entry beyond the ranked list is that
played-move dict. -/
theorem claim_C5_amended (mpv : MpvTable) (vb : VbTable) (cap : ℕ) (played : String) :
    (candsOut mpv vb cap played).length ≤ cap + 1 ∧
    (∀ c, c ∈ truncCands mpv vb cap → c ∈ rankedCands mpv vb) ∧
    (∀ c, c ∈ candsOut mpv vb cap played →
        c ∈ rankedCands mpv vb ∨ c.move = played) := by
  have htl : (truncCands mpv vb cap).length ≤ cap := List.length_take_le cap _
  have hts : ∀ c, c ∈ truncCands mpv vb cap → c ∈ rankedCands mpv vb :=
    fun c hc => List.take_subset cap _ hc
  refine ⟨?_, hts, ?_⟩
  · unfold candsOut
    cases hf : findPlayed mpv vb cap played with
    | some c =>
        simp only [hf]
        omega
    | none =>
        simp only [hf]
        cases hl : lookupA vb played with
        | some e =>
            simp only [hl, List.length_append, List.length_cons, List.length_nil]
            omega
        | none =>
            simp only [hl]
            omega
  · intro c hc
    unfold candsOut at hc
    cases hf : findPlayed mpv vb cap played with
    | some d =>
        rw [hf] at hc
        exact Or.inl (hts c hc)
    | none =>
        rw [hf] at hc
        cases hl : lookupA vb played with
        | some e =>
            rw [hl] at hc
            rcases List.mem_append.mp hc with hm | hm
            · exact Or.inl (hts c hm)
            · rcases List.mem_singleton.mp hm with rfl
              exact Or.inr rfl
        | none =>
            rw [hl] at hc
            exact Or.inl (hts c hc)

/-- C6, amended: `total_visits` is the sum of visit counts over the full
verbose table, and it is `None` exactly when that sum is zero — which
covers the empty table but also any non-empty table of zero-visit
entries; it does not depend on the candidate capacity at all. -/
theorem claim_C6_amended (mpv : MpvTable) (vb : VbTable) (cap cap2 : ℕ)
    (played : String) :
    totalVisitsOut vb = (if sumVisits vb = 0 then none else some (sumVisits vb)) ∧
    (totalVisitsOut vb = none ↔ sumVisits vb = 0) ∧
    (reconcile mpv vb cap played).2.2.1 = (reconcile mpv vb cap2 played).2.2.1 := by
  have h1 : totalVisitsOut vb =
      (if sumVisits vb = 0 then none else some (sumVisits vb)) := by
    unfold totalVisitsOut
    cases vb with
    | nil => simp [sumVisits]
    | cons p t => simp [List.isEmpty]
  refine ⟨h1, ?_, rfl⟩
  rw [h1]
  split <;> simp_all

/-- The per-candidate frame relation of the recovery step: all data
fields preserved; the WDL preserved, or set to the recovered triple on
the played move. -/
def recoverFrame (played : String) (w : Option Wdl) (c c2 : RankedCand) : Prop :=
  c2.move = c.move ∧ c2.rank = c.rank ∧ c2.visits = c.visits ∧
  c2.policy = c.policy ∧ c2.qval = c.qval ∧
  (c2.wdl = c.wdl ∨ (c.move = played ∧ c2.wdl = w))

/-- Splicing a WDL into the candidate list respects the frame relation
pointwise. -/
theorem setCandWdl_forall₂ (w : Wdl) (played : String) :
    ∀ cands : List RankedCand,
      List.Forall₂ (recoverFrame played (some w)) cands (setCandWdl w played cands) := by
  intro cands
  induction cands with
  | nil => exact List.Forall₂.nil
  | cons c cs ih =>
      unfold setCandWdl
      by_cases h : c.move = played
      · rw [if_pos h]
        exact List.Forall₂.cons ⟨rfl, rfl, rfl, rfl, rfl, Or.inr ⟨h, rfl⟩⟩
          (List.forall₂_same.mpr fun x _ => ⟨rfl, rfl, rfl, rfl, rfl, Or.inl rfl⟩)
      · rw [if_neg h]
        exact List.Forall₂.cons ⟨rfl, rfl, rfl, rfl, rfl, Or.inl rfl⟩ ih

/-- C9: for an evaluation missing its WDL, the recovery step only ever
sets the evaluation's `wdl` to the triple found in the focused transcript
(absent if none is found there), never touches `rank`, `visits`,
`policy` or `q_value`, changes nothing at all when the focused search
yields no WDL (a failed recovery is not fatal — `recover` is total), and
rewrites the candidate list only through the pointwise frame relation
(all data fields preserved; WDL added only on the played move). -/
theorem claim_C9 (ev : Evaluation) (cands : List RankedCand) (played : String)
    (focused : List String) (h : ev.wdl = none) :
    (recover ev cands played focused).1.rank = ev.rank ∧
    (recover ev cands played focused).1.visits = ev.visits ∧
    (recover ev cands played focused).1.policy = ev.policy ∧
    (recover ev cands played focused).1.q_value = ev.q_value ∧
    (recover ev cands played focused).1.wdl = findFocusedWdl focused ∧
    (findFocusedWdl focused = none → recover ev cands played focused = (ev, cands)) ∧
    List.Forall₂ (recoverFrame played (findFocusedWdl focused)) cands
      (recover ev cands played focused).2 := by
  have hg : ev.wdl.isSome = false := by rw [h]; rfl
  unfold recover
  rw [hg]
  simp only [Bool.false_eq_true, if_false]
  cases hf : findFocusedWdl focused with
  | some w =>
      exact ⟨rfl, rfl, rfl, rfl, rfl, fun hc => absurd hc (by simp),
        setCandWdl_forall₂ w played cands⟩
  | none =>
      exact ⟨rfl, rfl, rfl, rfl, h, fun _ => rfl,
        List.forall₂_same.mpr fun x _ => ⟨rfl, rfl, rfl, rfl, rfl, Or.inl rfl⟩⟩

/-- C10: `visits_on_better` and `evaluation` are `None` together: both
are derived from the same played-move data, and whenever that data exists
it carries a rank (both construction sites write one), so
`visits_on_better` is then a genuine (possibly zero) number. -/
theorem claim_C10 (mpv : MpvTable) (vb : VbTable) (cap : ℕ) (played : String) :
    ((evalOut mpv vb cap played).isSome = (vobOut mpv vb cap played).isSome) ∧
    ((evalOut mpv vb cap played = none) ↔ (vobOut mpv vb cap played = none)) := by
  unfold evalOut vobOut
  cases pmdOf mpv vb cap played <;> simp

/-- A concrete multipv table for witnesses: `e2e4` with a WDL, `d2d4`
without. -/
def mpvW : MpvTable := [("e2e4", some (500, 300, 200)), ("d2d4", none)]

/-- A concrete verbose table for witnesses: only `d2d4`, with 7 visits. -/
def vbW : VbTable := [("d2d4", ⟨7, Rat.divInt 1 4, none⟩)]

/-- C1 witness: the amended theorem instantiated on concrete tables. -/
theorem claim_C1_witness :
    ((rankedCands mpvW vbW).map RankedCand.move).Perm (mpvW.map Prod.fst) :=
  (claim_C1_amended mpvW vbW 3 "a7a6" (by decide)).1

/-- C2 witness: the amended theorem instantiated on concrete tables. -/
theorem claim_C2_witness :
    (rankedCands mpvW vbW).map RankedCand.rank = List.range' 1 mpvW.length :=
  (claim_C2_amended mpvW vbW (by decide)).1

/-- C3 witness: the amended theorem instantiated on a concrete
synthesized-path input. -/
theorem claim_C3_witness :
    (vobOut [] vbW 10 "d2d4" = some 0 ↔
      (evalOut [] vbW 10 "d2d4").map Evaluation.rank = some 1) :=
  claim_C3_amended [] vbW 10 "d2d4" (by decide) (by decide)

/-- C4 witness: the synthesized-evaluation branch instantiated on a
concrete input. -/
theorem claim_C4_witness :
    evalOut [] vbW 10 "d2d4" =
      some ⟨1 + countGreater vbW 7, some 7, some (Rat.divInt 1 4), none, none⟩ :=
  ((claim_C4 [] vbW 10 "d2d4").2 (by decide)).1 ⟨7, Rat.divInt 1 4, none⟩ (by decide)

/-- C5 witness: the membership branch instantiated on a concrete
candidate of a concrete run. -/
theorem claim_C5_witness :
    (⟨"d2d4", 1, some 7, some (Rat.divInt 1 4), none, none⟩ : RankedCand) ∈
        rankedCands mpvW vbW ∨
      (⟨"d2d4", 1, some 7, some (Rat.divInt 1 4), none, none⟩ : RankedCand).move =
        "d2d4" :=
  (claim_C5_amended mpvW vbW 1 "d2d4").2.2 _ (by decide)

/-- C6 witness: capacity-independence of `total_visits` on a concrete
input. -/
theorem claim_C6_witness :
    (reconcile mpvW vbW 0 "d2d4").2.2.1 = (reconcile mpvW vbW 5 "d2d4").2.2.1 :=
  (claim_C6_amended mpvW vbW 0 5 "d2d4").2.2

/-- A concrete evaluation missing its WDL, for the C9 witness. -/
def evW : Evaluation := ⟨2, some 7, some (Rat.divInt 1 4), none, none⟩

/-- A concrete candidate list for the C9 witness. -/
def candsW : List RankedCand :=
  [⟨"e2e4", 1, some 10, some (Rat.divInt 1 2), some (some (Rat.divInt 1 2)), none⟩,
   ⟨"d2d4", 2, some 7, some (Rat.divInt 1 4), none, none⟩]

/-- A concrete focused-search transcript carrying a WDL line, for the C9
witness. -/
def focusedW : List String := ["info depth 1 multipv 1 wdl 400 350 250 pv d2d4"]

/-- C9 witness: the recovery frame theorem instantiated on a concrete
recovery. -/
theorem claim_C9_witness :
    (recover evW candsW "d2d4" focusedW).1.wdl = findFocusedWdl focusedW :=
  (claim_C9 evW candsW "d2d4" focusedW rfl).2.2.2.2.1

/-- C10 witness: the nullness equivalence instantiated on concrete
tables. -/
theorem claim_C10_witness :
    (evalOut mpvW vbW 2 "d2d4" = none ↔ vobOut mpvW vbW 2 "d2d4" = none) :=
  (claim_C10 mpvW vbW 2 "d2d4").2
